import Mathlib

/-!
Verification of the benchmark orchestration harness in
`src/benchit/src/main.rs` (crate `benchit`).

Shallow embedding conventions:
* Rust `u16`/`u64`/`usize` values are modelled as `Nat`, with `% 65536`
  wrapping written explicitly where the source can overflow (the `c *= 2`
  sweep counter) and the `usize` parse bound `2 ^ 64` made explicit.
* Rust `f32` quantities (latencies, CPU percentages) are modelled as `ℚ`:
  parsing a captured `\d+.\d+` string and scaling by 1000 or 1/1000 are
  exact rational operations.  The only place `f32` semantics matter beyond
  rounding is the chart division at a zero maximum, where `f32` gives
  `0.0 / 0.0 = NaN` and `NaN as usize = 0`; the `ℚ` convention `0 / 0 = 0`
  yields the same bar size, and a positive latency with zero maximum is
  unreachable because the maximum dominates every entry.
* Fallible code returns `Option`/`Except`.
-/

namespace Benchit

/-! ## Report parser (`process_wrk`, main.rs lines 88–108)

The parser scans stdout line by line against the two regexes
`Latency\s+(\d+\.\d+)(\w+)` and `Requests/sec:\s+(\d+)`.  The matchers
below implement the leftmost-first semantics of the `regex` crate for
these two concrete patterns, restricted to the ASCII character classes
(`\d` = `0-9`, `\w` = alphanumeric or `_`, `\s` = ASCII whitespace),
which is all the wrk output format uses. -/

/-- ASCII decimal digit, the `\d` class on the inputs in question. -/
def isDigitChar (c : Char) : Bool := c.isDigit

/-- ASCII word character, the `\w` class on the inputs in question. -/
def isWordChar (c : Char) : Bool := c.isAlphanum || c == '_'

/-- ASCII whitespace, the `\s` class on the inputs in question. -/
def isSpaceChar (c : Char) : Bool :=
  c == ' ' || c == '\t' || c == '\n' || c == '\r' || c == '\x0b' || c == '\x0c'

/-- Strip an expected literal from the front of the text, failing if the
text does not start with it. -/
def dropPref : List Char → List Char → Option (List Char)
  | [], s => some s
  | _ :: _, [] => none
  | p :: ps, c :: cs => if p == c then dropPref ps cs else none

/-- Numeric value of a digit string, as Rust integer parsing computes it. -/
def digitsVal (ds : List Char) : Nat :=
  ds.foldl (fun a c => 10 * a + (c.toNat - '0'.toNat)) 0

/-- Attempt to match `Latency\s+(\d+\.\d+)(\w+)` anchored at the start of
`s`, returning (integer digits, fractional digits, unit capture).
Capture group 1 of the regex is the integer digits, a `.`, and the
fractional digits.  The only backtracking choice point of the pattern is
the boundary between the second `\d+` and `(\w+)` (digits are word
characters): when no word character follows the maximal digit run, the
greedy `\d+` hands exactly its last digit to `(\w+)`. -/
def latMatchAt (s : List Char) : Option (List Char × List Char × List Char) :=
  match dropPref "Latency".data s with
  | none => none
  | some r0 =>
    let ws := r0.takeWhile isSpaceChar
    let r1 := r0.dropWhile isSpaceChar
    if ws.isEmpty then none else
    let d1 := r1.takeWhile isDigitChar
    let r2 := r1.dropWhile isDigitChar
    if d1.isEmpty then none else
    match r2 with
    | '.' :: r3 =>
      let d2 := r3.takeWhile isDigitChar
      let r4 := r3.dropWhile isDigitChar
      if d2.isEmpty then none else
      let u := r4.takeWhile isWordChar
      if !u.isEmpty then some (d1, d2, u)
      else if 2 ≤ d2.length then
        some (d1, d2.take (d2.length - 1), d2.drop (d2.length - 1))
      else none
    | _ => none

/-- Leftmost match of the latency pattern in a line, as
`Regex::captures` finds it: try each start position left to right. -/
def latFind : List Char → Option (List Char × List Char × List Char)
  | [] => none
  | c :: cs =>
    match latMatchAt (c :: cs) with
    | some r => some r
    | none => latFind cs

/-- Attempt to match `Requests/sec:\s+(\d+)` anchored at the start of `s`,
returning the digit capture. -/
def rpsMatchAt (s : List Char) : Option (List Char) :=
  match dropPref "Requests/sec:".data s with
  | none => none
  | some r0 =>
    let ws := r0.takeWhile isSpaceChar
    let r1 := r0.dropWhile isSpaceChar
    if ws.isEmpty then none else
    let d := r1.takeWhile isDigitChar
    if d.isEmpty then none else some d

/-- Leftmost match of the throughput pattern in a line. -/
def rpsFind : List Char → Option (List Char)
  | [] => none
  | c :: cs =>
    match rpsMatchAt (c :: cs) with
    | some r => some r
    | none => rpsFind cs

/-- Unit scaling of main.rs lines 97–101: seconds ×1000, microseconds
×0.001, any other unit capture (including `ms`) left unscaled. -/
def unitScale (u : List Char) : ℚ :=
  if u = ['s'] then 1000 else if u = ['u', 's'] then 1 / 1000 else 1

/-- Exact value of the captured decimal `<d1>.<d2>`, as the `f32` parse on
line 96 reads it (modelled exactly over `ℚ`; the capture shape
`\d+\.\d+` always parses, so this parse is infallible). -/
def decVal (d1 d2 : List Char) : ℚ :=
  (digitsVal d1 : ℚ) + (digitsVal d2 : ℚ) / 10 ^ d2.length

/-- Normalized latency contributed by one line, when the latency regex
matches it (main.rs lines 95–102). -/
def latencyValue (line : String) : Option ℚ :=
  (latFind line.data).map fun t => decVal t.1 t.2.1 * unitScale t.2.2

/-- Captured throughput numeral of one line, when the throughput regex
matches it (main.rs line 103).  The value is the unbounded numeral; the
`usize` parse on line 104 fails above `usizeBound - 1`. -/
def rpsValue (line : String) : Option Nat :=
  (rpsFind line.data).map digitsVal

/-- `WrkStats` (main.rs lines 82–86); `Default` is the zero value. -/
structure WrkStats where
  latency : ℚ
  rps : Nat
deriving DecidableEq

/-- Bound of a 64-bit `usize`; `str::parse::<usize>` fails at or above it. -/
def usizeBound : Nat := 2 ^ 64

/-- One iteration of the line loop of `process_wrk` (main.rs lines
94–106): overwrite the latency if the latency regex matches, then
overwrite the rps if the throughput regex matches; the `usize` parse of
the rps capture is the only fallible step (`?` aborts on overflow). -/
def stepLine (st : WrkStats) (line : String) : Except Unit WrkStats :=
  let st1 :=
    match latencyValue line with
    | some v => { st with latency := v }
    | none => st
  match rpsValue line with
  | some n => if n < usizeBound then .ok { st1 with rps := n } else .error ()
  | none => .ok st1

/-- The line loop of `process_wrk`, threading the accumulated stats. -/
def runLines : WrkStats → List String → Except Unit WrkStats
  | st, [] => .ok st
  | st, l :: ls =>
    match stepLine st l with
    | .ok st1 => runLines st1 ls
    | .error e => .error e

/-- `process_wrk` (main.rs lines 88–108) on the already-decoded line list
of the captured stdout (the `String::from_utf8` step happens upstream of
this model), starting from the zero-valued default `WrkStats`. -/
def processWrk (lines : List String) : Except Unit WrkStats :=
  runLines ⟨0, 0⟩ lines

/-! ## Run invoker (`wrk`, main.rs lines 31–40) -/

/-- Thread-count hint passed to wrk: `concurrency/10+1` in `u16`
arithmetic (main.rs line 33; `65535/10+1 = 6554`, so the addition cannot
wrap for any `u16` input). -/
def threadHint (c : Nat) : Nat := c / 10 + 1

/-- Argument list of the wrk invocation built on main.rs lines 33–36
(`kill_on_drop` and the stdout pipe carry no data and are not modelled). -/
def wrkArgs (c : Nat) (url : String) (delay : Nat) : List String :=
  ["-t " ++ toString (threadHint c), "-c " ++ toString c,
   "-d" ++ toString delay ++ "s", url]

/-! ## Resource sampler (`monitor_processes`, main.rs lines 55–80) -/

/-- A snapshot entry of the OS process table.  The three reads the
source performs on it are all fallible in `psutil`: `name()` returns a
`Result` (checked with `is_ok`), while `cpu_percent()` and
`memory_info()` are `unwrap`ped (a `none` there models the panic the
spec flags as a known fragility). -/
structure Proc where
  name : Option String
  cpu : Option ℚ
  mem : Option Nat
deriving DecidableEq

/-- `ProcessReport` (main.rs lines 49–53); `Default` is the zero value. -/
structure ProcessReport where
  cpu : ℚ
  mem : Nat
deriving DecidableEq

/-- `ProcessesReport` (main.rs lines 42–47). -/
structure ProcessesReport where
  postgres : ProcessReport
  node : ProcessReport
  actix : ProcessReport
deriving DecidableEq

/-- Substring test at some start position: the pattern is a prefix here
or somewhere further right. -/
def containsSeq (pat : List Char) : List Char → Bool
  | [] => pat.isEmpty
  | c :: t => pat.isPrefixOf (c :: t) || containsSeq pat t

/-- Rust `str::contains(name)`: case-sensitive substring containment. -/
def strContains (hay pat : String) : Bool := containsSeq pat.data hay.data

/-- The filter of main.rs line 64: keep processes whose name read
succeeds and whose name contains the group name as a substring. -/
def selectedBy (name : String) (procs : List Proc) : List Proc :=
  procs.filter fun p =>
    match p.name with
    | some s => strContains s name
    | none => false

/-- The fold body of main.rs lines 66–73: add each process's CPU
percentage and resident memory onto the accumulator, in list order;
`none` models the `unwrap` panic on the first unreadable metric. -/
def foldReport : ProcessReport → List Proc → Option ProcessReport
  | acc, [] => some acc
  | acc, p :: t =>
    match p.cpu, p.mem with
    | some c, some m => foldReport ⟨acc.cpu + c, acc.mem + m⟩ t
    | _, _ => none

/-- The `proc_stats` closure of main.rs lines 63–73: fold the selected
processes from the zero (default) `ProcessReport`. -/
def procStats (name : String) (procs : List Proc) : Option ProcessReport :=
  foldReport ⟨0, 0⟩ (selectedBy name procs)

/-- `monitor_processes` (main.rs lines 55–80) on an already-taken
snapshot (the enumeration plus the 5-second settling delay happen before
the three aggregations and carry no data into them). -/
def monitorProcesses (procs : List Proc) : Option ProcessesReport := do
  pure ⟨← procStats "postgres" procs, ← procStats "node" procs,
        ← procStats "actix" procs⟩

/-! ## Aggregator / renderer (`print_charts`, main.rs lines 121–149) -/

/-- `Results` (main.rs lines 110–116). -/
structure Results where
  test : String
  name : String
  concurrency : Nat
  proc_stats : ProcessesReport
  wrk_stats : WrkStats
deriving DecidableEq

/-- Global maximum latency over the whole result list (first component
of the fold on main.rs lines 126–128, starting from `0f32`). -/
def maxLatOf (data : List Results) : ℚ :=
  data.foldl (fun a r => max a r.wrk_stats.latency) 0

/-- Global maximum rps over the whole result list (second component of
the same fold, starting from `0`). -/
def maxRpsOf (data : List Results) : Nat :=
  data.foldl (fun a r => max a r.wrk_stats.rps) 0

/-- Latency bar size (main.rs line 135):
`(latency * width as f32 / max_lat) as usize + 1`.  The `as usize` cast
truncates toward zero, i.e. takes the floor of the nonnegative quotient.
At `max_lat = 0` the only reachable numerator is `0` (the maximum
dominates the list), where `f32` gives `0.0/0.0 = NaN` and
`NaN as usize = 0`; the `ℚ` convention `0/0 = 0` agrees. -/
def barLenLat (v m : ℚ) (w : Nat) : Nat :=
  (⌊v * (w : ℚ) / m⌋).toNat + 1

/-- Rps bar size (main.rs line 145): `rps * width / max_rps + 1` in
`usize` arithmetic; integer division by zero panics, modelled as
`none`. -/
def barLenRps (v m w : Nat) : Option Nat :=
  if m = 0 then none else some (v * w / m + 1)

/-- The `group_by` key equality of main.rs lines 131/141: same `test`
string and same concurrency. -/
def sameKey (a b : Results) : Bool :=
  a.test == b.test && a.concurrency == b.concurrency

/-- One step of grouping consecutive equal-key entries, processed from
the right: an entry joins the leftmost group when its key equals that
group's first element's key (group members all share one key, so this is
the adjacent-element comparison `itertools::group_by` makes). -/
def insertRun (r : Results) : List (List Results) → List (List Results)
  | [] => [[r]]
  | [] :: gs => [r] :: [] :: gs
  | (x :: xs) :: gs =>
    if sameKey r x then (r :: x :: xs) :: gs else [r] :: (x :: xs) :: gs

/-- `itertools::group_by` over the `(test, concurrency)` key: the list
split into maximal runs of consecutive entries with equal keys. -/
def groupRuns (l : List Results) : List (List Results) :=
  l.foldr insertRun []

/-- Per-entry fallible map, the loop shape of both chart passes: the
first failing entry aborts (models the panic order of the nested `for`
loops). -/
def mapOpt (f : α → Option β) : List α → Option (List β)
  | [] => some []
  | a :: t =>
    match f a with
    | none => none
    | some b => (mapOpt f t).map (b :: ·)

/-- The latency chart pass (main.rs lines 130–138): per group, per
entry, the drawn bar size, every bar scaled by the global maximum. -/
def latencyChart (data : List Results) (w : Nat) : List (List Nat) :=
  (groupRuns data).map fun g =>
    g.map fun r => barLenLat r.wrk_stats.latency (maxLatOf data) w

/-- The rps chart pass (main.rs lines 140–148); `none` is the
division-by-zero panic at the first entry reached. -/
def rpsChart (data : List Results) (w : Nat) : Option (List (List Nat)) :=
  mapOpt (fun g => mapOpt (fun r => barLenRps r.wrk_stats.rps (maxRpsOf data) w) g)
    (groupRuns data)

/-! ## Orchestrator sweep (`main`, main.rs lines 164–199) -/

/-- The concurrency sweep `let mut c = 1u16; while c < max { …; c *= 2 }`
as a fuel-indexed trace: first component the levels whose loop body ran,
second component whether the loop has exited within that much fuel.
`c *= 2` is `u16` wrapping multiplication, hence the explicit
`% 65536`. -/
def sweepTrace : Nat → Nat → Nat → List Nat × Bool
  | 0, _, _ => ([], false)
  | fuel + 1, c, m =>
    if c < m then
      let t := sweepTrace fuel (2 * c % 65536) m
      (c :: t.1, t.2)
    else ([], true)

/-- The inner backend loop of main.rs line 168: at each tested level,
first the node backend runs, then the actix backend, before the level
doubles. -/
def backendRuns (levels : List Nat) : List (Nat × String) :=
  (levels.map fun c => [(c, "node"), (c, "actix")]).flatten

/-! ## Concrete inputs used by witnesses and counterexamples -/

/-- All-zero `ProcessesReport`, the `Default` used when monitoring is
disabled. -/
def zeroProcs : ProcessesReport := ⟨⟨0, 0⟩, ⟨0, 0⟩, ⟨0, 0⟩⟩

/-- The mock snapshot of the spec's resource-aggregation example. -/
def mockProcs : List Proc :=
  [⟨some "node-worker-1", some 10, some 100⟩,
   ⟨some "node-worker-2", some 20, some 200⟩,
   ⟨some "postgres-main", some 5, some 50⟩]

/-- Two same-group results with latencies 2 and 3 (and rps 2 and 3): at
width 100 the smaller entry's quotient is 200/3, where rounding and
truncation disagree. -/
def cexData : List Results :=
  [⟨"t", "node", 1, zeroProcs, ⟨2, 2⟩⟩,
   ⟨"t", "actix", 1, zeroProcs, ⟨3, 3⟩⟩]

/-- A single result with a zero measurement. -/
def oneZeroRes : Results := ⟨"t", "node", 1, zeroProcs, ⟨0, 0⟩⟩

/-- Two results with equal measurements at different concurrency levels,
hence in different chart groups. -/
def c6Data : List Results :=
  [⟨"t", "node", 1, zeroProcs, ⟨5, 7⟩⟩,
   ⟨"t", "node", 2, zeroProcs, ⟨5, 7⟩⟩]

/-! ## Helper lemmas: the parser's line loop -/

theorem lastGetD {α : Type _} :
    ∀ (t : List α) (v d : α), ((v :: t).getLast?).getD d = (t.getLast?).getD v := by
  intro t
  induction t with
  | nil => intro v d; rfl
  | cons b bs ih =>
    intro v d
    rw [List.getLast?_cons_cons]
    rw [ih b d, ih b v]

/-- What one accepted line does to the state: the two fields are
overwritten by that line's matches, independently. -/
theorem stepLine_ok (st st1 : WrkStats) (l : String)
    (h : stepLine st l = .ok st1) :
    st1.latency = ((latencyValue l).getD st.latency) ∧
    st1.rps = ((rpsValue l).getD st.rps) := by
  unfold stepLine at h
  cases hl : latencyValue l <;> rw [hl] at h <;>
    cases hr : rpsValue l <;> rw [hr] at h <;>
    simp only [] at h
  · exact ⟨by cases h; rfl, by cases h; rfl⟩
  · rename_i n
    by_cases hb : n < usizeBound
    · rw [if_pos hb] at h; cases h; exact ⟨rfl, rfl⟩
    · rw [if_neg hb] at h; cases h
  · exact ⟨by cases h; rfl, by cases h; rfl⟩
  · rename_i v n
    by_cases hb : n < usizeBound
    · rw [if_pos hb] at h; cases h; exact ⟨rfl, rfl⟩
    · rw [if_neg hb] at h; cases h

/-- A line is only rejected when its throughput capture overflows. -/
theorem stepLine_err (st : WrkStats) (l : String) (e : Unit)
    (h : stepLine st l = .error e) :
    ∃ n, rpsValue l = some n ∧ usizeBound ≤ n := by
  unfold stepLine at h
  cases hl : latencyValue l <;> rw [hl] at h <;>
    cases hr : rpsValue l <;> rw [hr] at h <;>
    simp only [] at h
  · cases h
  · rename_i n
    by_cases hb : n < usizeBound
    · rw [if_pos hb] at h; cases h
    · exact ⟨n, rfl, Nat.le_of_not_lt hb⟩
  · cases h
  · rename_i v n
    by_cases hb : n < usizeBound
    · rw [if_pos hb] at h; cases h
    · exact ⟨n, rfl, Nat.le_of_not_lt hb⟩

/-- Last-match-wins characterization of the line loop: on success, each
field holds the value of the last matching line, or the initial value
when no line matched. -/
theorem runLines_ok :
    ∀ (ls : List String) (st r : WrkStats), runLines st ls = .ok r →
      r.latency = ((ls.filterMap latencyValue).getLast?).getD st.latency ∧
      r.rps = ((ls.filterMap rpsValue).getLast?).getD st.rps := by
  intro ls
  induction ls with
  | nil =>
    intro st r h
    cases h
    exact ⟨rfl, rfl⟩
  | cons l t ih =>
    intro st r h
    unfold runLines at h
    cases hstep : stepLine st l <;> rw [hstep] at h
    · cases h
    · rename_i st1
      obtain ⟨ihl, ihr⟩ := ih st1 r h
      obtain ⟨s1l, s1r⟩ := stepLine_ok st st1 l hstep
      constructor
      · rw [ihl, s1l, List.filterMap_cons]
        cases hl : latencyValue l
        · rfl
        · simp only [Option.getD_some, lastGetD]
      · rw [ihr, s1r, List.filterMap_cons]
        cases hr : rpsValue l
        · rfl
        · simp only [Option.getD_some, lastGetD]

/-- The line loop fails only when some line's throughput capture
overflows the `usize` parse. -/
theorem runLines_err :
    ∀ (ls : List String) (st : WrkStats) (e : Unit), runLines st ls = .error e →
      ∃ l ∈ ls, ∃ n, rpsValue l = some n ∧ usizeBound ≤ n := by
  intro ls
  induction ls with
  | nil => intro st e h; cases h
  | cons l t ih =>
    intro st e h
    unfold runLines at h
    cases hstep : stepLine st l <;> rw [hstep] at h
    · exact ⟨l, List.mem_cons_self l t, stepLine_err st l _ hstep⟩
    · rename_i st1
      obtain ⟨l2, hl2, hn⟩ := ih st1 e h
      exact ⟨l2, List.mem_cons_of_mem l hl2, hn⟩

/-! ## Helper lemmas: grouping and charts -/

theorem insertRun_flatten (r : Results) :
    ∀ G : List (List Results), (insertRun r G).flatten = r :: G.flatten := by
  intro G
  match G with
  | [] => rfl
  | [] :: gs => rfl
  | (x :: xs) :: gs =>
    by_cases h : sameKey r x
    · simp [insertRun, h]
    · simp [insertRun, h]

/-- Flattening the consecutive-key groups gives back the original list:
grouping only splits, never reorders or drops. -/
theorem groupRuns_flatten : ∀ l : List Results, (groupRuns l).flatten = l := by
  intro l
  induction l with
  | nil => rfl
  | cons r t ih =>
    show (insertRun r (groupRuns t)).flatten = r :: t
    rw [insertRun_flatten, ih]

theorem flatten_map_map {α β : Type _} (f : α → β) :
    ∀ L : List (List α), (L.map fun g => g.map f).flatten = L.flatten.map f := by
  intro L
  induction L with
  | nil => rfl
  | cons g gs ih =>
    simp only [List.map_cons, List.flatten_cons, List.map_append, ih]

theorem mapOpt_none {α β : Type _} (f : α → Option β) :
    ∀ (l : List α) (a : α), a ∈ l → f a = none → mapOpt f l = none := by
  intro l
  induction l with
  | nil => intro a ha; cases ha
  | cons b t ih =>
    intro a ha hfa
    rcases List.mem_cons.mp ha with h | h
    · subst h; simp [mapOpt, hfa]
    · unfold mapOpt
      cases hfb : f b
      · rfl
      · rw [ih a h hfa]; rfl

theorem mapOpt_some {α β : Type _} (f : α → Option β) (g : α → β) :
    ∀ l : List α, (∀ a ∈ l, f a = some (g a)) → mapOpt f l = some (l.map g) := by
  intro l
  induction l with
  | nil => intro _; rfl
  | cons b t ih =>
    intro h
    unfold mapOpt
    rw [h b (List.mem_cons_self b t), ih (fun a ha => h a (List.mem_cons_of_mem b ha))]
    rfl

/-- Every member of every group is a member of the original list. -/
theorem mem_of_mem_groupRuns {r : Results} {g : List Results} {l : List Results}
    (hg : g ∈ groupRuns l) (hr : r ∈ g) : r ∈ l := by
  rw [← groupRuns_flatten l]
  exact List.mem_flatten.mpr ⟨g, hg, hr⟩

/-- An all-zero latency column makes the global latency maximum zero. -/
theorem maxLatOf_zero (data : List Results)
    (h : ∀ r ∈ data, r.wrk_stats.latency = 0) : maxLatOf data = 0 := by
  unfold maxLatOf
  induction data with
  | nil => rfl
  | cons r t ih =>
    rw [List.foldl_cons, h r (List.mem_cons_self r t)]
    simpa using ih fun x hx => h x (List.mem_cons_of_mem r hx)

/-- An all-zero rps column makes the global rps maximum zero. -/
theorem maxRpsOf_zero (data : List Results)
    (h : ∀ r ∈ data, r.wrk_stats.rps = 0) : maxRpsOf data = 0 := by
  unfold maxRpsOf
  induction data with
  | nil => rfl
  | cons r t ih =>
    rw [List.foldl_cons, h r (List.mem_cons_self r t)]
    simpa using ih fun x hx => h x (List.mem_cons_of_mem r hx)

/-- With a zero global rps maximum and at least one entry, the rps pass
reaches an unguarded division by zero. -/
theorem rpsChart_none_of (data : List Results) (w : Nat)
    (hne : data ≠ []) (h0 : maxRpsOf data = 0) : rpsChart data w = none := by
  obtain ⟨r, t, rfl⟩ : ∃ r t, data = r :: t := by
    cases data with
    | nil => exact absurd rfl hne
    | cons r t => exact ⟨r, t, rfl⟩
  have hr : r ∈ (groupRuns (r :: t)).flatten := by
    rw [groupRuns_flatten]; exact List.mem_cons_self r t
  obtain ⟨g, hg, hrg⟩ := List.mem_flatten.mp hr
  have hinner : mapOpt (fun x => barLenRps x.wrk_stats.rps (maxRpsOf (r :: t)) w) g = none :=
    mapOpt_none _ g r hrg (by simp [barLenRps, h0])
  exact mapOpt_none _ (groupRuns (r :: t)) g hg hinner

/-- With a nonzero global rps maximum, no entry panics and the rps pass
draws `rps * width / max + 1` for every entry of every group. -/
theorem rpsChart_some_of (data : List Results) (w : Nat)
    (h0 : maxRpsOf data ≠ 0) :
    rpsChart data w =
      some ((groupRuns data).map fun g =>
        g.map fun r => r.wrk_stats.rps * w / maxRpsOf data + 1) := by
  unfold rpsChart
  exact mapOpt_some _ _ _ fun g _ =>
    mapOpt_some _ _ g fun r _ => by simp [barLenRps, h0]

/-! ## Helper lemmas: the concurrency sweep -/

/-- Once the counter has wrapped to zero, the loop guard `0 < m` stays
true (for nonzero ceiling) and the counter stays zero, so the loop never
exits. -/
theorem sweepTrace_zero (m : Nat) (hm : 0 < m) :
    ∀ f : Nat, (sweepTrace f 0 m).2 = false := by
  intro f
  induction f with
  | zero => rfl
  | succ f ih => simpa [sweepTrace, hm] using ih

/-- Levels whose body runs always satisfy the loop guard. -/
theorem sweepTrace_mem :
    ∀ (f c m l : Nat), l ∈ (sweepTrace f c m).1 → l < m := by
  intro f
  induction f with
  | zero => intro c m l h; simp [sweepTrace] at h
  | succ f ih =>
    intro c m l h
    by_cases hc : c < m
    · simp only [sweepTrace, if_pos hc, List.mem_cons] at h
      rcases h with h | h
      · exact h ▸ hc
      · exact ih _ m l h
    · simp [sweepTrace, hc] at h

/-- A terminating sweep started at a power of two (exponent at most 15,
so no wrap can have happened) visits exactly the successive doubled
levels. -/
theorem sweepTrace_pow :
    ∀ (f k m : Nat), k ≤ 15 → (sweepTrace f (2 ^ k) m).2 = true →
      (sweepTrace f (2 ^ k) m).1 =
        (List.range (sweepTrace f (2 ^ k) m).1.length).map fun i => 2 ^ (k + i) := by
  intro f
  induction f with
  | zero => intro k m hk h; cases h
  | succ f ih =>
    intro k m hk h
    by_cases hc : 2 ^ k < m
    · have hdone : (sweepTrace f (2 * 2 ^ k % 65536) m).2 = true := by
        simpa [sweepTrace, hc] using h
      rcases Nat.lt_or_ge k 15 with hk15 | hk15
      · have hnext : 2 * 2 ^ k % 65536 = 2 ^ (k + 1) := by
          have hb : 2 ^ (k + 1) < 65536 := by
            calc 2 ^ (k + 1) ≤ 2 ^ 15 := Nat.pow_le_pow_right (by norm_num) (by omega)
            _ < 65536 := by norm_num
          rw [show 2 * 2 ^ k = 2 ^ (k + 1) by rw [pow_succ]; ring]
          exact Nat.mod_eq_of_lt hb
        rw [hnext] at hdone
        have ihk := ih (k + 1) m (by omega) hdone
        simp only [sweepTrace, if_pos hc, hnext]
        rw [ihk]
        simp only [List.length_cons, List.length_map, List.length_range,
          List.range_succ_eq_map, List.map_cons, List.map_map]
        congr 1
        apply List.map_congr_left
        intro i _
        show 2 ^ (k + 1 + i) = 2 ^ (k + Nat.succ i)
        congr 1
        omega
      · have hk' : k = 15 := le_antisymm hk hk15
        subst hk'
        exfalso
        rw [show 2 * 2 ^ 15 % 65536 = 0 by norm_num] at hdone
        have hz := sweepTrace_zero m (lt_of_le_of_lt (Nat.zero_le _) hc) f
        rw [hz] at hdone
        cases hdone
    · simp [sweepTrace, hc]

/-- For a ceiling at most `2 ^ 15`, the sweep started at `2 ^ k` exits
within `17 - k` iterations. -/
theorem sweepTrace_done :
    ∀ (f k m : Nat), k ≤ 15 → m ≤ 32768 → 16 - k < f →
      (sweepTrace f (2 ^ k) m).2 = true := by
  intro f
  induction f with
  | zero => intro k m hk hm hf; omega
  | succ f ih =>
    intro k m hk hm hf
    by_cases hc : 2 ^ k < m
    · have hk14 : k ≤ 14 := by
        by_contra hk15
        have hk' : k = 15 := by omega
        subst hk'
        have : (32768 : Nat) < m := by norm_num at hc ⊢; omega
        omega
      have hnext : 2 * 2 ^ k % 65536 = 2 ^ (k + 1) := by
        have hb : 2 ^ (k + 1) < 65536 := by
          calc 2 ^ (k + 1) ≤ 2 ^ 15 := Nat.pow_le_pow_right (by norm_num) (by omega)
          _ < 65536 := by norm_num
        rw [show 2 * 2 ^ k = 2 ^ (k + 1) by rw [pow_succ]; ring]
        exact Nat.mod_eq_of_lt hb
      simp only [sweepTrace, if_pos hc, hnext]
      exact ih (k + 1) m (by omega) hm (by omega)
    · simp [sweepTrace, hc]

/-- For a ceiling above `2 ^ 15`, every guard up to and including the
wrap is taken, and after the wrap the counter is stuck at zero: the loop
never exits, with any amount of fuel. -/
theorem sweepTrace_nodone :
    ∀ (f k m : Nat), k ≤ 15 → 32768 < m → (sweepTrace f (2 ^ k) m).2 = false := by
  intro f
  induction f with
  | zero => intro k m hk hm; rfl
  | succ f ih =>
    intro k m hk hm
    have hc : 2 ^ k < m := by
      have : 2 ^ k ≤ 2 ^ 15 := Nat.pow_le_pow_right (by norm_num) hk
      have h15 : (2 : Nat) ^ 15 = 32768 := by norm_num
      omega
    rcases Nat.lt_or_ge k 15 with hk15 | hk15
    · have hnext : 2 * 2 ^ k % 65536 = 2 ^ (k + 1) := by
        have hb : 2 ^ (k + 1) < 65536 := by
          calc 2 ^ (k + 1) ≤ 2 ^ 15 := Nat.pow_le_pow_right (by norm_num) (by omega)
          _ < 65536 := by norm_num
        rw [show 2 * 2 ^ k = 2 ^ (k + 1) by rw [pow_succ]; ring]
        exact Nat.mod_eq_of_lt hb
      simp only [sweepTrace, if_pos hc, hnext]
      exact ih (k + 1) m (by omega) hm
    · have hk' : k = 15 := le_antisymm hk hk15
      subst hk'
      simp only [sweepTrace, if_pos hc, show 2 * 2 ^ 15 % 65536 = 0 by norm_num]
      exact sweepTrace_zero m (by omega) f

/-! ## Helper lemmas: the resource aggregation fold -/

/-- The aggregation fold of `proc_stats`, from an arbitrary accumulator:
when every listed process's metric reads succeed, it adds the
component-wise sums. -/
theorem foldProc :
    ∀ (l : List Proc) (acc : ProcessReport),
      (∀ p ∈ l, p.cpu.isSome ∧ p.mem.isSome) →
      foldReport acc l =
        some ⟨acc.cpu + (l.map fun p => p.cpu.getD 0).sum,
              acc.mem + (l.map fun p => p.mem.getD 0).sum⟩ := by
  intro l
  induction l with
  | nil => intro acc _; simp [foldReport]
  | cons p t ih =>
    intro acc h
    obtain ⟨hc, hm⟩ := h p (List.mem_cons_self p t)
    obtain ⟨c, hc⟩ := Option.isSome_iff_exists.mp hc
    obtain ⟨m, hm⟩ := Option.isSome_iff_exists.mp hm
    unfold foldReport
    rw [hc, hm]
    show foldReport ⟨acc.cpu + c, acc.mem + m⟩ t = _
    rw [ih ⟨acc.cpu + c, acc.mem + m⟩ fun q hq => h q (List.mem_cons_of_mem p hq)]
    simp only [List.map_cons, List.sum_cons, hc, hm, Option.getD_some]
    congr 1
    dsimp only
    rw [add_assoc, add_assoc]

/-- `proc_stats` returns the component-wise sums over the selected
processes whenever all their metric reads succeed. -/
theorem procStats_sum (name : String) (procs : List Proc)
    (h : ∀ p ∈ selectedBy name procs, p.cpu.isSome ∧ p.mem.isSome) :
    procStats name procs =
      some ⟨((selectedBy name procs).map fun p => p.cpu.getD 0).sum,
            ((selectedBy name procs).map fun p => p.mem.getD 0).sum⟩ := by
  unfold procStats
  rw [foldProc (selectedBy name procs) ⟨0, 0⟩ h]
  simp

/-! ## The claims -/

deriving instance DecidableEq for Except

/-- Unit scale values at the three concrete unit captures the claims
exercise. -/
theorem unitScale_eval :
    unitScale ['m', 's'] = 1 ∧ unitScale ['s'] = 1000 ∧
    unitScale ['u', 's'] = 1 / 1000 := by
  refine ⟨?_, ?_, ?_⟩
  · unfold unitScale
    rw [if_neg (by decide), if_neg (by decide)]
  · unfold unitScale
    rw [if_pos rfl]
  · unfold unitScale
    rw [if_neg (by decide), if_pos rfl]

/-- Claim C1, counterexample: the claim asserts that an input containing
`Latency 300us` yields latency 0.3, but the latency regex
`Latency\s+(\d+\.\d+)(\w+)` requires a decimal point in the number, so
`Latency 300us` does not match at all and the parser returns the
zero-valued measurement, not 0.3. -/
theorem claim_C1_counterexample :
    processWrk ["Latency 300us"] = .ok ⟨0, 0⟩ ∧ (0 : ℚ) ≠ 3 / 10 := by
  constructor
  · rfl
  · norm_num

/-- Claim C1 as amended: the parser normalizes a matched latency line
`Latency <digits>.<digits><unit>` to milliseconds — `Latency 12.34ms`
yields 12.34, `Latency 1.200s` yields 1200.0, `Latency 300.00us` yields
0.3 — while `Latency 300us` (no decimal point) does not match the
pattern and leaves the measurement at its default 0; any unit capture
other than `s` and `us` leaves the captured number unscaled. -/
theorem claim_C1_amended :
    processWrk ["Latency 12.34ms"] = .ok ⟨1234 / 100, 0⟩ ∧
    processWrk ["Latency 1.200s"] = .ok ⟨1200, 0⟩ ∧
    processWrk ["Latency 300.00us"] = .ok ⟨3 / 10, 0⟩ ∧
    processWrk ["Latency 300us"] = .ok ⟨0, 0⟩ ∧
    ∀ u : List Char, u ≠ ['s'] → u ≠ ['u', 's'] → unitScale u = 1 := by
  refine ⟨?_, ?_, ?_, by rfl, ?_⟩
  · rw [show processWrk ["Latency 12.34ms"] =
        .ok ⟨decVal ['1', '2'] ['3', '4'] * unitScale ['m', 's'], 0⟩ from rfl]
    rw [unitScale_eval.1, mul_one]
    unfold decVal
    rw [show digitsVal ['1', '2'] = 12 from rfl, show digitsVal ['3', '4'] = 34 from rfl,
      show (['3', '4'] : List Char).length = 2 from rfl]
    norm_num
  · rw [show processWrk ["Latency 1.200s"] =
        .ok ⟨decVal ['1'] ['2', '0', '0'] * unitScale ['s'], 0⟩ from rfl]
    rw [unitScale_eval.2.1]
    unfold decVal
    rw [show digitsVal ['1'] = 1 from rfl, show digitsVal ['2', '0', '0'] = 200 from rfl,
      show (['2', '0', '0'] : List Char).length = 3 from rfl]
    norm_num
  · rw [show processWrk ["Latency 300.00us"] =
        .ok ⟨decVal ['3', '0', '0'] ['0', '0'] * unitScale ['u', 's'], 0⟩ from rfl]
    rw [unitScale_eval.2.2]
    unfold decVal
    rw [show digitsVal ['3', '0', '0'] = 300 from rfl, show digitsVal ['0', '0'] = 0 from rfl,
      show (['0', '0'] : List Char).length = 2 from rfl]
    norm_num
  · intro u h1 h2
    simp [unitScale, h1, h2]

/-- Claim C1, witness: the unit `ms` is neither `s` nor `us` and is left
unscaled. -/
theorem claim_C1_witness :
    "ms".data ≠ ['s'] ∧ "ms".data ≠ ['u', 's'] ∧ unitScale "ms".data = 1 :=
  ⟨by decide, by decide,
   claim_C1_amended.2.2.2.2 "ms".data (by decide) (by decide)⟩

/-- Claim C2: the sweep starts at concurrency 1 and doubles; every level
whose body runs is strictly below the ceiling (a level equal to the
ceiling is never tested); ceiling 128 tests exactly 1,2,4,8,16,32,64 and
ceiling 1 tests nothing; at each level both backends run, node first,
before the level doubles. -/
theorem claim_C2 :
    (∀ f m l : Nat, l ∈ (sweepTrace f 1 m).1 → l < m) ∧
    (∀ f m : Nat, (sweepTrace f 1 m).2 = true →
      (sweepTrace f 1 m).1 =
        (List.range (sweepTrace f 1 m).1.length).map fun i => 2 ^ i) ∧
    (sweepTrace 17 1 128).1 = [1, 2, 4, 8, 16, 32, 64] ∧
    (sweepTrace 17 1 128).2 = true ∧
    (sweepTrace 17 1 1).1 = [] ∧
    (sweepTrace 17 1 1).2 = true ∧
    backendRuns (sweepTrace 17 1 128).1 =
      [(1, "node"), (1, "actix"), (2, "node"), (2, "actix"),
       (4, "node"), (4, "actix"), (8, "node"), (8, "actix"),
       (16, "node"), (16, "actix"), (32, "node"), (32, "actix"),
       (64, "node"), (64, "actix")] := by
  refine ⟨?_, ?_, by decide, by decide, by decide, by decide, by decide⟩
  · intro f m l h
    exact sweepTrace_mem f 1 m l h
  · intro f m h
    have hp := sweepTrace_pow f 0 m (by norm_num) (by simpa using h)
    simpa using hp

/-- Claim C2, witness: a tested level of the ceiling-128 sweep is below
the ceiling, and a terminated sweep's level list is the doubling list. -/
theorem claim_C2_witness :
    (64 : Nat) < 128 ∧
    (sweepTrace 17 1 40).1 =
      (List.range (sweepTrace 17 1 40).1.length).map (fun i => 2 ^ i) :=
  ⟨claim_C2.1 17 128 64 (by decide), claim_C2.2.1 17 40 (by decide)⟩

/-- Claim C3, counterexample: with entries of latency (and rps) 2 and 3
in one group and width 100, the smaller entry's bar has size
`trunc(200/3) + 1 = 67`, whereas the claim's formula
`round(200/3) + 1` gives 68: the renderer truncates, it does not
round. -/
theorem claim_C3_counterexample :
    latencyChart cexData 100 = [[67, 101]] ∧
    rpsChart cexData 100 = some [[67, 101]] ∧
    (round ((2 : ℚ) * 100 / 3)).toNat + 1 = 68 := by
  refine ⟨?_, by decide, ?_⟩
  · have hmax : maxLatOf cexData = 3 := by
      show max (max 0 2) 3 = 3
      rw [max_eq_right (by norm_num : (0 : ℚ) ≤ 2), max_eq_right (by norm_num : (2 : ℚ) ≤ 3)]
    rw [show latencyChart cexData 100 =
        [[barLenLat 2 (maxLatOf cexData) 100, barLenLat 3 (maxLatOf cexData) 100]] from rfl]
    rw [hmax]
    rw [show barLenLat 2 3 100 = 67 from by
      unfold barLenLat
      rw [show ⌊(2 : ℚ) * ((100 : Nat) : ℚ) / 3⌋ = 66 from by norm_num]
      rfl]
    rw [show barLenLat 3 3 100 = 101 from by
      unfold barLenLat
      rw [show ⌊(3 : ℚ) * ((100 : Nat) : ℚ) / 3⌋ = 100 from by norm_num]
      rfl]
  · have h : round ((2 : ℚ) * 100 / 3) = 67 := by norm_num [round_eq]
    rw [h]
    rfl

/-- Claim C3 as amended: each entry's bar has length
`trunc(value × width / globalMax) + 1` (truncation toward zero, i.e.
floor of the nonnegative quotient — not rounding); an entry whose value
equals the positive maximum renders `width + 1` (101 at width 100), and
a zero-valued entry renders length 1. -/
theorem claim_C3_amended :
    (∀ (data : List Results) (w : Nat),
        (latencyChart data w).flatten =
          data.map fun r =>
            (⌊r.wrk_stats.latency * (w : ℚ) / maxLatOf data⌋).toNat + 1) ∧
    (∀ (m : ℚ) (w : Nat), 0 < m → barLenLat m m w = w + 1) ∧
    (∀ (m : ℚ) (w : Nat), barLenLat 0 m w = 1) ∧
    (∀ m w : Nat, 0 < m → barLenRps m m w = some (w + 1) ∧
        barLenRps 0 m w = some 1) := by
  refine ⟨?_, ?_, ?_, ?_⟩
  · intro data w
    unfold latencyChart
    rw [flatten_map_map, groupRuns_flatten]
    rfl
  · intro m w hm
    unfold barLenLat
    rw [mul_comm m (w : ℚ), mul_div_assoc, div_self (ne_of_gt hm), mul_one]
    simp
  · intro m w
    simp [barLenLat]
  · intro m w hm
    unfold barLenRps
    simp only [if_neg (Nat.pos_iff_ne_zero.mp hm)]
    constructor
    · rw [Nat.mul_div_cancel_left w hm]
    · rw [Nat.zero_mul, Nat.zero_div]

/-- Claim C3, witness: at width 100 a maximal entry renders 101 and a
zero entry renders 1, in both metrics. -/
theorem claim_C3_witness :
    ((0 : ℚ) < 5 ∧ barLenLat 5 5 100 = 100 + 1) ∧
    barLenLat 0 5 100 = 1 ∧
    (0 < 5 ∧ barLenRps 5 5 100 = some (100 + 1) ∧ barLenRps 0 5 100 = some 1) :=
  ⟨⟨by norm_num, claim_C3_amended.2.1 5 100 (by norm_num)⟩,
   claim_C3_amended.2.2.1 5 100,
   ⟨by norm_num, (claim_C3_amended.2.2.2 5 100 (by norm_num)).1,
    (claim_C3_amended.2.2.2 5 100 (by norm_num)).2⟩⟩

/-- Claim C4: when no line matches either pattern the parser succeeds
with the zero-valued measurement; it fails only when some line's
captured throughput numeral overflows the `usize` parse (the captured
latency shape `\d+\.\d+` always converts; byte decoding happens upstream
of this model). -/
theorem claim_C4 :
    (∀ lines : List String,
        (∀ l ∈ lines, latencyValue l = none ∧ rpsValue l = none) →
        processWrk lines = .ok ⟨0, 0⟩) ∧
    (∀ (lines : List String) (e : Unit), processWrk lines = .error e →
        ∃ l ∈ lines, ∃ n, rpsValue l = some n ∧ usizeBound ≤ n) := by
  constructor
  · intro lines h
    cases hp : processWrk lines with
    | error e =>
      unfold processWrk at hp
      obtain ⟨l, hl, n, hn, _⟩ := runLines_err lines ⟨0, 0⟩ e hp
      rw [(h l hl).2] at hn
      cases hn
    | ok r =>
      unfold processWrk at hp
      obtain ⟨h1, h2⟩ := runLines_ok lines ⟨0, 0⟩ r hp
      rw [List.filterMap_eq_nil_iff.mpr fun a ha => (h a ha).1] at h1
      rw [List.filterMap_eq_nil_iff.mpr fun a ha => (h a ha).2] at h2
      simp only [List.getLast?_nil, Option.getD_none] at h1 h2
      cases r with
      | mk lat rps =>
        have h1x : lat = 0 := h1
        have h2x : rps = 0 := h2
        rw [h1x, h2x]
  · intro lines e h
    unfold processWrk at h
    exact runLines_err lines ⟨0, 0⟩ e h

/-- Claim C4, witness: an output with no matching line parses to the
zero measurement. -/
theorem claim_C4_witness :
    processWrk ["Running 10s test", "2 threads and 10 connections"] = .ok ⟨0, 0⟩ :=
  claim_C4.1 ["Running 10s test", "2 threads and 10 connections"] (by decide)

/-- Claim C5: on success each measurement field holds the value of the
last matching line in line order — later matching lines overwrite
earlier ones. -/
theorem claim_C5 :
    ∀ (lines : List String) (r : WrkStats), processWrk lines = .ok r →
      r.latency = ((lines.filterMap latencyValue).getLast?).getD 0 ∧
      r.rps = ((lines.filterMap rpsValue).getLast?).getD 0 := by
  intro lines r h
  unfold processWrk at h
  exact runLines_ok lines ⟨0, 0⟩ r h

/-- Claim C5, witness: with two latency lines and two throughput lines,
the parsed result carries the later value of each. -/
theorem claim_C5_witness :
    (WrkStats.mk 2000 30).latency =
      (((["Requests/sec:  10", "Latency 1.0ms", "Latency 2.0s",
          "Requests/sec:  30"]).filterMap latencyValue).getLast?).getD 0 ∧
    (WrkStats.mk 2000 30).rps =
      (((["Requests/sec:  10", "Latency 1.0ms", "Latency 2.0s",
          "Requests/sec:  30"]).filterMap rpsValue).getLast?).getD 0 :=
  claim_C5 _ ⟨2000, 30⟩ (by
    rw [show processWrk
          ["Requests/sec:  10", "Latency 1.0ms", "Latency 2.0s", "Requests/sec:  30"] =
        .ok ⟨decVal ['2'] ['0'] * unitScale ['s'], 30⟩ from rfl]
    rw [unitScale_eval.2.1]
    unfold decVal
    rw [show digitsVal ['2'] = 2 from rfl, show digitsVal ['0'] = 0 from rfl,
      show (['0'] : List Char).length = 1 from rfl]
    norm_num)

/-- Claim C6: both chart passes scale every bar of every group by the
maximum of the metric over the entire list: flattened across groups, the
latency bars are exactly the per-entry sizes against the global latency
maximum, likewise for rps when the pass does not panic, and two entries
with equal metric values — wherever they sit, in particular in different
groups — render equal-sized bars. -/
theorem claim_C6 :
    (∀ (data : List Results) (w : Nat),
        (latencyChart data w).flatten =
          data.map fun r => barLenLat r.wrk_stats.latency (maxLatOf data) w) ∧
    (∀ (data : List Results) (w : Nat) (bars : List (List Nat)),
        rpsChart data w = some bars →
        bars.flatten = data.map fun r => r.wrk_stats.rps * w / maxRpsOf data + 1) ∧
    (∀ (data : List Results) (w i j : Nat) (r1 r2 : Results),
        data[i]? = some r1 → data[j]? = some r2 →
        r1.wrk_stats.latency = r2.wrk_stats.latency →
        (latencyChart data w).flatten[i]? = (latencyChart data w).flatten[j]?) ∧
    (∀ (data : List Results) (w : Nat) (bars : List (List Nat)) (i j : Nat)
        (r1 r2 : Results),
        rpsChart data w = some bars →
        data[i]? = some r1 → data[j]? = some r2 →
        r1.wrk_stats.rps = r2.wrk_stats.rps →
        bars.flatten[i]? = bars.flatten[j]?) := by
  have h1 : ∀ (data : List Results) (w : Nat),
      (latencyChart data w).flatten =
        data.map fun r => barLenLat r.wrk_stats.latency (maxLatOf data) w := by
    intro data w
    unfold latencyChart
    rw [flatten_map_map, groupRuns_flatten]
  have h2 : ∀ (data : List Results) (w : Nat) (bars : List (List Nat)),
      rpsChart data w = some bars →
      bars.flatten = data.map fun r => r.wrk_stats.rps * w / maxRpsOf data + 1 := by
    intro data w bars hb
    by_cases h0 : maxRpsOf data = 0
    · cases data with
      | nil =>
        have he : rpsChart ([] : List Results) w = some [] := rfl
        rw [he] at hb
        cases hb
        rfl
      | cons r t =>
        rw [rpsChart_none_of (r :: t) w (by simp) h0] at hb
        cases hb
    · rw [rpsChart_some_of data w h0] at hb
      injection hb with hb
      subst hb
      rw [flatten_map_map, groupRuns_flatten]
  refine ⟨h1, h2, ?_, ?_⟩
  · intro data w i j r1 r2 hi hj hlat
    rw [h1 data w]
    rw [List.getElem?_map, List.getElem?_map, hi, hj]
    simp only [Option.map_some']
    rw [hlat]
  · intro data w bars i j r1 r2 hb hi hj hrps
    rw [h2 data w bars hb]
    rw [List.getElem?_map, List.getElem?_map, hi, hj]
    simp only [Option.map_some']
    rw [hrps]

/-- Claim C6, witness: two entries in different concurrency groups with
equal latency render equal bars. -/
theorem claim_C6_witness :
    (latencyChart c6Data 100).flatten[0]? = (latencyChart c6Data 100).flatten[1]? :=
  claim_C6.2.2.1 c6Data 100 0 1
    ⟨"t", "node", 1, zeroProcs, ⟨5, 7⟩⟩ ⟨"t", "node", 2, zeroProcs, ⟨5, 7⟩⟩
    rfl rfl rfl

/-- Claim C9: a non-empty list whose rps column is all zero makes the
throughput pass divide by the zero global maximum on its first entry
(panic, modelled as `none`), while an all-zero latency column does not
panic: the latency pass draws every bar with size 1 (`f32` gives
`0.0/0.0 = NaN` there and `NaN as usize = 0`, matching the `ℚ`
convention `0/0 = 0`). -/
theorem claim_C9 :
    (∀ (data : List Results) (w : Nat), data ≠ [] →
        (∀ r ∈ data, r.wrk_stats.rps = 0) → rpsChart data w = none) ∧
    (∀ (data : List Results) (w : Nat),
        (∀ r ∈ data, r.wrk_stats.latency = 0) →
        latencyChart data w = (groupRuns data).map fun g => g.map fun _ => 1) := by
  constructor
  · intro data w hne h
    exact rpsChart_none_of data w hne (maxRpsOf_zero data h)
  · intro data w h
    unfold latencyChart
    apply List.map_congr_left
    intro g hg
    apply List.map_congr_left
    intro r hr
    rw [h r (mem_of_mem_groupRuns hg hr), maxLatOf_zero data h]
    simp [barLenLat]

/-- Claim C9, witness: one all-zero result makes the rps pass panic
while the latency pass draws a single bar of size 1. -/
theorem claim_C9_witness :
    rpsChart [oneZeroRes] 100 = none ∧
    latencyChart [oneZeroRes] 100 =
      (groupRuns [oneZeroRes]).map (fun g => g.map fun _ => 1) :=
  ⟨claim_C9.1 [oneZeroRes] 100 (by simp)
     (by intro r hr; rw [List.mem_singleton.mp hr]; rfl),
   claim_C9.2 [oneZeroRes] 100
     (by intro r hr; rw [List.mem_singleton.mp hr]; rfl)⟩

/-- Claim C7: the aggregation selects exactly the processes whose name
read succeeds and contains the group name as a case-sensitive substring,
returns the component-wise sums of their CPU percentages and resident
memory when those reads succeed, and yields the zero report for a group
with no matching process; on the spec's mock snapshot, group `node` sums
the two node workers, `postgres` the one postgres process, and `actix`
nothing. -/
theorem claim_C7 :
    (∀ (name : String) (procs : List Proc),
        (∀ p ∈ selectedBy name procs, p.cpu.isSome ∧ p.mem.isSome) →
        procStats name procs =
          some ⟨((selectedBy name procs).map fun p => p.cpu.getD 0).sum,
                ((selectedBy name procs).map fun p => p.mem.getD 0).sum⟩) ∧
    (∀ (name : String) (procs : List Proc), selectedBy name procs = [] →
        procStats name procs = some ⟨0, 0⟩) ∧
    procStats "node" mockProcs = some ⟨30, 300⟩ ∧
    procStats "postgres" mockProcs = some ⟨5, 50⟩ ∧
    procStats "actix" mockProcs = some ⟨0, 0⟩ ∧
    strContains "Node-worker-1" "node" = false := by
  refine ⟨procStats_sum, ?_, ?_, ?_, by rfl, by decide⟩
  · intro name procs h
    unfold procStats
    rw [h]
    rfl
  · rw [show procStats "node" mockProcs =
        some ⟨(0 : ℚ) + 10 + 20, 0 + 100 + 200⟩ from rfl]
    norm_num
  · rw [show procStats "postgres" mockProcs = some ⟨(0 : ℚ) + 5, 0 + 50⟩ from rfl]
    norm_num

/-- Claim C7, witness: on the mock snapshot, the node group's sums are
returned (all reads succeed). -/
theorem claim_C7_witness :
    procStats "node" mockProcs =
      some ⟨((selectedBy "node" mockProcs).map fun p => p.cpu.getD 0).sum,
            ((selectedBy "node" mockProcs).map fun p => p.mem.getD 0).sum⟩ :=
  claim_C7.1 "node" mockProcs (by decide)

/-- Claim C8: the wrk invocation's first argument is the thread-count
hint `concurrency/10 + 1` (integer division), which is at least 1 for
every `u16` concurrency, including those below 10. -/
theorem claim_C8 :
    ∀ c : Nat, c < 65536 → ∀ (url : String) (delay : Nat),
      (wrkArgs c url delay).head? = some ("-t " ++ toString (c / 10 + 1)) ∧
      1 ≤ threadHint c := by
  intro c hc url delay
  exact ⟨rfl, Nat.le_add_left 1 _⟩

/-- Claim C8, witness: at concurrency 3 the hint is `3/10 + 1 = 1`. -/
theorem claim_C8_witness :
    (3 : Nat) < 65536 ∧
    ((wrkArgs 3 "http://h/tasks" 60).head? = some ("-t " ++ toString (3 / 10 + 1)) ∧
      1 ≤ threadHint 3) :=
  ⟨by norm_num, claim_C8 3 (by norm_num) "http://h/tasks" 60⟩

/-- Claim C10: the `u16` sweep counter terminates the loop for every
ceiling at most 32768 (within 17 iterations), while for any larger
ceiling the doubling of 32768 wraps to 0 (`2·32768 mod 2^16 = 0`), after
which the counter stays 0 and the loop never exits, whatever the fuel. -/
theorem claim_C10 :
    (∀ m : Nat, m ≤ 32768 → (sweepTrace 17 1 m).2 = true) ∧
    (∀ m : Nat, 32768 < m → ∀ f : Nat, (sweepTrace f 1 m).2 = false) ∧
    2 * 32768 % 65536 = 0 ∧
    (∀ m : Nat, 0 < m → ∀ f : Nat, (sweepTrace f 0 m).2 = false) := by
  refine ⟨?_, ?_, by norm_num, ?_⟩
  · intro m hm
    have := sweepTrace_done 17 0 m (by norm_num) hm (by norm_num)
    simpa using this
  · intro m hm f
    have := sweepTrace_nodone f 0 m (by norm_num) hm
    simpa using this
  · intro m hm f
    exact sweepTrace_zero m hm f

/-- Claim C10, witness: ceiling 128 terminates with fuel 17; ceiling
40000 has not terminated after 19 iterations (nor ever). -/
theorem claim_C10_witness :
    (sweepTrace 17 1 128).2 = true ∧ (sweepTrace 19 1 40000).2 = false :=
  ⟨claim_C10.1 128 (by norm_num), claim_C10.2.1 40000 (by norm_num) 19⟩

end Benchit
